import Mathlib

/-!
Verification of the tiny Lisp interpreter (src/tinylisp.c) against its
specification.  The interpreter's value model, reader, printer, environment,
evaluator and built-ins are shallowly embedded below; machine pointers are
modelled by allocation identifiers (each call of an allocating constructor
yields a fresh identifier, so two objects are the same pointer exactly when
they carry the same identifier), `stderr` by a list of diagnostic lines and
`stdout` by an output string, both threaded through an explicit state.
-/

set_option maxHeartbeats 4000000

namespace TinyLisp

/-- Character classes used by the tokenizer: the C `isspace` (default locale)
accepts space, tab, newline, vertical tab, form feed and carriage return. -/
def isSpaceC (c : Char) : Bool :=
  c = ' ' || c = '\t' || c = '\n' || c = Char.ofNat 11 || c = Char.ofNat 12 || c = '\r'

/-- The C `isdigit`. -/
def isDigitC (c : Char) : Bool :=
  48 ≤ c.toNat && c.toNat ≤ 57

/-- The object types of the interpreter (`ObjType` in the source).  `tNull`
stands for the C `NULL` pointer, which the parser returns at end of input. -/
inductive CTag : Type where
  | tInt : CTag
  | tSym : CTag
  | tCons : CTag
  | tFunc : CTag
  | tLam : CTag
  | tNull : CTag
deriving DecidableEq, Repr

/-- Names of the built-in functions (the function pointers stored in
`T_FUNC` objects). -/
inductive BName : Type where
  | bCar | bCdr | bCons | bAdd | bSub | bMul | bDiv | bEq | bLt | bPrint
deriving DecidableEq, Repr

/-- Runtime objects (`struct Obj`).  The first `Nat` of each constructor is
the allocation identifier standing for the object's address, so equality of
`Obj` values is exactly pointer equality of the C program.  A closure's
captured environment is itself an object (a list of `(symbol . value)`
pairs), exactly as in the source. -/
inductive Obj : Type where
  | nullO : Obj
  | intO (id : Nat) (n : Int) : Obj
  | symO (id : Nat) (name : String) : Obj
  | consO (id : Nat) (a d : Obj) : Obj
  | funcO (id : Nat) (f : BName) : Obj
  | lamO (id : Nat) (params body env : Obj) : Obj
deriving DecidableEq, Repr

/-- The nil singleton, allocated first by `repl` (address 0). -/
def nilObj : Obj := Obj.symO 0 "nil"

/-- The t singleton, allocated second by `repl` (address 1). -/
def tObj : Obj := Obj.symO 1 "t"

/-- Interpreter state: the allocation counter (the next fresh address), the
global environment cell `*global_env_ptr`, the diagnostics written to
`stderr` (in order), and the text written to `stdout`. -/
structure St : Type where
  nextId : Nat
  glob : Obj
  diags : List String
  out : String
deriving DecidableEq, Repr

def bumpId (s : St) : St := { s with nextId := s.nextId + 1 }

def addDiag (m : String) (s : St) : St := { s with diags := s.diags ++ [m] }

def addOut (m : String) (s : St) : St := { s with out := s.out ++ m }

/-- The function `make_int` allocates a fresh integer object. -/
def make_int (n : Int) (s : St) : Obj × St := (Obj.intO s.nextId n, bumpId s)

/-- The function `make_symbol` allocates a fresh symbol object (the name is copied); in
particular two calls with the same name yield distinct objects. -/
def make_symbol (name : String) (s : St) : Obj × St :=
  (Obj.symO s.nextId name, bumpId s)

/-- The `cons` constructor. -/
def consM (a d : Obj) (s : St) : Obj × St := (Obj.consO s.nextId a d, bumpId s)

/-- The function `make_func`. -/
def make_func (f : BName) (s : St) : Obj × St := (Obj.funcO s.nextId f, bumpId s)

/-- The function `make_lambda`. -/
def make_lambda (params body env : Obj) (s : St) : Obj × St :=
  (Obj.lamO s.nextId params body env, bumpId s)

/-- The function `is_nil`: pointer comparison with the nil singleton. -/
def is_nil (o : Obj) : Bool := decide (o = nilObj)

/-- The `type` field of an object. -/
def objType : Obj → CTag
  | .nullO => CTag.tNull
  | .intO _ _ => CTag.tInt
  | .symO _ _ => CTag.tSym
  | .consO _ _ _ => CTag.tCons
  | .funcO _ _ => CTag.tFunc
  | .lamO _ _ _ _ => CTag.tLam

/-- Reading the `sym` field.  Only ever applied to symbols by the source
(reading it from another variant would be a type-confused union access). -/
def symName : Obj → String
  | .symO _ nm => nm
  | _ => ""

/-- Reading the `num` field; only ever applied to integers by the source. -/
def intVal : Obj → Int
  | .intO _ n => n
  | _ => 0

/-- The `car` accessor function: diagnoses non-pairs and yields nil. -/
def carF (o : Obj) (s : St) : Obj × St :=
  match o with
  | .consO _ a _ => (a, s)
  | _ => (nilObj, addDiag "CAR: not a cons cell" s)

/-- The `cdr` accessor function: diagnoses non-pairs and yields nil. -/
def cdrF (o : Obj) (s : St) : Obj × St :=
  match o with
  | .consO _ _ d => (d, s)
  | _ => (nilObj, addDiag "CDR: not a cons cell" s)

/-- Decimal digit characters of a natural number, most significant first
(accumulator form); embeds the digit emission of `printf("%d", ...)`.  The
first argument is fuel for the division chain; `n` itself always suffices
(the digit count of `n` is at most `n`), so the fuel-exhausted arm is
unreachable in `natToDecChars`. -/
def natToDecAux : Nat → Nat → List Char → List Char
  | 0, n, acc => Nat.digitChar (n % 10) :: acc
  | fuel + 1, n, acc =>
    if n < 10 then Nat.digitChar (n % 10) :: acc
    else natToDecAux fuel (n / 10) (Nat.digitChar (n % 10) :: acc)

def natToDecChars (n : Nat) : List Char := natToDecAux n n []

/-- The function `printf("%d", n)` for a signed integer. -/
def intToDec (n : Int) : String :=
  match n with
  | Int.ofNat m => String.mk (natToDecChars m)
  | Int.negSucc m => String.mk ('-' :: natToDecChars (m + 1))

mutual

/-- The function `print_obj`. -/
def print_obj : Obj → String
  | .nullO => "NULL"
  | .intO _ n => intToDec n
  | .symO _ nm => nm
  | .consO _ a d => "(" ++ print_obj a ++ print_cdr d ++ ")"
  | .funcO _ _ => "<built-in function>"
  | .lamO _ _ _ _ => "<lambda>"

/-- The list-printing loop inside `print_obj`: successive elements are
preceded by a space, a non-nil non-pair tail is preceded by a dot (the
non-pair cases inline `print_obj` on that atom, which does not recurse). -/
def print_cdr : Obj → String
  | .consO _ a d => " " ++ print_obj a ++ print_cdr d
  | .nullO => " . NULL"
  | .intO _ n => " . " ++ intToDec n
  | .symO i nm => if is_nil (Obj.symO i nm) then "" else " . " ++ nm
  | .funcO _ _ => " . <built-in function>"
  | .lamO _ _ _ _ => " . <lambda>"

end

/-- The function `skip_whitespace` as a single structural loop over the input with an
in-comment flag: in comment mode everything up to the newline is skipped,
and the newline itself — being whitespace — is then skipped by the normal
mode, exactly as in the source's nested loops. -/
def skip_ws_aux : Bool → List Char → List Char
  | _, [] => []
  | true, c :: cs =>
    if c = '\n' then skip_ws_aux false cs else skip_ws_aux true cs
  | false, c :: cs =>
    if isSpaceC c then skip_ws_aux false cs
    else if c = ';' then skip_ws_aux true cs
    else c :: cs

/-- The function `skip_whitespace`: skip spaces and `;`-to-newline comments. -/
def skip_whitespace (cs : List Char) : List Char := skip_ws_aux false cs

/-- The atom-reading loop of `read_token`: a maximal run of characters that
are neither whitespace nor parentheses (note that `;` and the quote
character are ordinary atom characters here). -/
def take_atom : List Char → List Char × List Char
  | [] => ([], [])
  | c :: cs =>
    if isSpaceC c || c = '(' || c = ')' then ([], c :: cs)
    else
      let (t, r) := take_atom cs
      (c :: t, r)

/-- The function `read_token`: skip whitespace, then emit a single-character paren token
or a maximal atom token; end of input yields no token. -/
def read_token (inp : List Char) : Option String × List Char :=
  match skip_whitespace inp with
  | [] => (none, [])
  | c :: cs =>
    if c = '(' || c = ')' then (some (String.mk [c]), cs)
    else
      let (t, r) := take_atom (c :: cs)
      (some (String.mk t), r)

/-- The digit test loop of `parse_expr`. -/
def all_digits : List Char → Bool
  | [] => true
  | c :: cs => isDigitC c && all_digits cs

/-- The number classification of `parse_expr`: an optional leading minus
sign, then at least one character, all of them digits. -/
def isNumTok : List Char → Bool
  | [] => false
  | c :: cs => if c = '-' then !cs.isEmpty && all_digits cs else all_digits (c :: cs)

/-- The digit-consuming loop of the C `atoi`. -/
def decFold : List Char → Int → Int
  | [], acc => acc
  | c :: cs, acc =>
    if isDigitC c then decFold cs (acc * 10 + ((c.toNat - 48 : Nat) : Int)) else acc

/-- The C `atoi`: skip whitespace, read an optional sign, then fold decimal
digits up to the first non-digit. -/
def atoi (cs : List Char) : Int :=
  match cs.dropWhile (fun c => isSpaceC c) with
  | [] => 0
  | c :: rest =>
    if c = '-' then - decFold rest 0
    else if c = '+' then decFold rest 0
    else decFold (c :: rest) 0

/-- The quote character as a string, spelled via its code point. -/
def quoteTok : String := String.mk [Char.ofNat 39]

/-- The diagnostic emitted when the closing paren of a list is missing; the
quote marks around the paren are spelled via their code point. -/
def expectedParenMsg : String :=
  "Expected " ++ String.mk [Char.ofNat 39, ')', Char.ofNat 39]

mutual

/-- The function `parse_list`: read expressions until a closing paren (left unconsumed)
or end of input (diagnosed, yielding nil).  Recursion is fuelled; every
theorem below supplies fuel that provably suffices. -/
def parse_list : Nat → List Char → St → Obj × List Char × St
  | 0, inp, s => (Obj.nullO, inp, s)
  | fuel + 1, inp, s =>
    match skip_whitespace inp with
    | [] => (nilObj, [], addDiag "Unexpected EOF in list" s)
    | c :: rest =>
      if c = ')' then (nilObj, c :: rest, s)
      else
        let (carO, inp2, s2) := parse_expr fuel (c :: rest) s
        let (cdrO, inp3, s3) := parse_list fuel inp2 s2
        let (p, s4) := consM carO cdrO s3
        (p, inp3, s4)

/-- The function `parse_expr`: read one token and dispatch on it; `nullO` models the
`NULL` result at end of input. -/
def parse_expr : Nat → List Char → St → Obj × List Char × St
  | 0, inp, s => (Obj.nullO, inp, s)
  | fuel + 1, inp, s =>
    match read_token inp with
    | (none, inp1) => (Obj.nullO, inp1, s)
    | (some tok, inp1) =>
      if tok = "(" then
        let (lst, inp2, s2) := parse_list fuel inp1 s
        match read_token inp2 with
        | (none, inp3) => (lst, inp3, addDiag expectedParenMsg s2)
        | (some tok2, inp3) =>
          if tok2 = ")" then (lst, inp3, s2)
          else (lst, inp3, addDiag expectedParenMsg s2)
      else if tok = quoteTok then
        let (q, inp2, s2) := parse_expr fuel inp1 s
        let (qs, s3) := make_symbol "quote" s2
        let (inner, s4) := consM q nilObj s3
        let (outer, s5) := consM qs inner s4
        (outer, inp2, s5)
      else if isNumTok tok.data then
        let (o, s2) := make_int (atoi tok.data) s
        (o, inp1, s2)
      else
        let (o, s2) := make_symbol tok s
        (o, inp1, s2)

end

/-- The function `env_lookup`: scan the binding chain front to back and return the value
of the first binding whose key has the given name, or nothing.  (A binding
chain is a nil-terminated list of `(symbol . value)` pairs; the catch-all
arms are unreachable because `env_define` only ever builds such chains.) -/
def env_lookup : Obj → String → Option Obj
  | .consO _ pair rest, name =>
    match pair with
    | .consO _ k v => if symName k = name then some v else env_lookup rest name
    | _ => env_lookup rest name
  | _, _ => none

/-- The function `env_define`: allocate a key symbol and prepend a `(key . value)` pair;
the given environment is not mutated. -/
def env_define (env : Obj) (name : String) (value : Obj) (s : St) : Obj × St :=
  let (k, s1) := make_symbol name s
  let (pair, s2) := consM k value s1
  consM pair env s2

/-- The parameter-binding loop of closure application: while both lists are
non-nil, bind the next parameter name to the next value and advance both;
the loop therefore stops at the shorter list.  The last three arms transcribe
one iteration on an improper (non-nil, non-pair) parameter or value list,
where `car`/`cdr` diagnose and yield nil, ending the loop (unreachable for
parsed programs, whose lists are always proper). -/
def bind_params (newEnv : Obj) (params : Obj) (vals : Obj) (s : St) : Obj × St :=
  if is_nil params || is_nil vals then (newEnv, s)
  else
    match params, vals with
    | .consO _ p ps, .consO _ v vs =>
      let (e1, s1) := env_define newEnv (symName p) v s
      bind_params e1 ps vs s1
    | .consO _ p _, _ =>
      let s1 := addDiag "CAR: not a cons cell" s
      let (e1, s2) := env_define newEnv (symName p) nilObj s1
      let s3 := addDiag "CDR: not a cons cell" s2
      (e1, s3)
    | _, .consO _ v _ =>
      let s1 := addDiag "CAR: not a cons cell" s
      let (e1, s2) := env_define newEnv "nil" v s1
      let s3 := addDiag "CDR: not a cons cell" s2
      (e1, s3)
    | _, _ =>
      let s1 := addDiag "CAR: not a cons cell" s
      let s2 := addDiag "CAR: not a cons cell" s1
      let (e1, s3) := env_define newEnv "nil" nilObj s2
      let s4 := addDiag "CDR: not a cons cell" s3
      let s5 := addDiag "CDR: not a cons cell" s4
      (e1, s5)

/-- Test for a symbol with a given name (the special-form dispatch
`op->type == T_SYMBOL && strcmp(op->sym, name) == 0`). -/
def isSymNamed (o : Obj) (name : String) : Bool :=
  match o with
  | .symO _ s => s = name
  | _ => false

/-- The summing loop of `builtin_add`: a non-integer argument is diagnosed
and 0 returned.  (The catch-all arm is the improper-list case, where `car`
diagnoses and yields nil, which is not an integer; unreachable since
`eval_list` always produces proper lists.) -/
def add_loop (sum : Int) (args : Obj) (s : St) : Obj × St :=
  if is_nil args then make_int sum s
  else
    match args with
    | .consO _ a rest =>
      match a with
      | .intO _ n => add_loop (sum + n) rest s
      | _ => make_int 0 (addDiag "+: expected integer" s)
    | _ => make_int 0 (addDiag "+: expected integer" (addDiag "CAR: not a cons cell" s))

def builtin_add (args _env : Obj) (s : St) : Obj × St := add_loop 0 args s

/-- The subtracting loop of `builtin_sub`: a non-integer argument silently
yields 0. -/
def sub_loop (result : Int) (args : Obj) (s : St) : Obj × St :=
  if is_nil args then make_int result s
  else
    match args with
    | .consO _ a rest =>
      match a with
      | .intO _ n => sub_loop (result - n) rest s
      | _ => make_int 0 s
    | _ => make_int 0 (addDiag "CAR: not a cons cell" s)

/-- The function `builtin_sub`: no arguments yield 0, one argument negates, more fold
subtraction from the left; a non-integer anywhere silently yields 0. -/
def builtin_sub (args _env : Obj) (s : St) : Obj × St :=
  if is_nil args then make_int 0 s
  else
    let (first, s1) := carF args s
    match first with
    | .intO _ n =>
      let (d, s2) := cdrF args s1
      if is_nil d then make_int (-n) s2
      else sub_loop n d s2
    | _ => make_int 0 s1

/-- The multiplying loop of `builtin_mul`: a non-integer argument silently
yields 1. -/
def mul_loop (product : Int) (args : Obj) (s : St) : Obj × St :=
  if is_nil args then make_int product s
  else
    match args with
    | .consO _ a rest =>
      match a with
      | .intO _ n => mul_loop (product * n) rest s
      | _ => make_int 1 s
    | _ => make_int 1 (addDiag "CAR: not a cons cell" s)

def builtin_mul (args _env : Obj) (s : St) : Obj × St := mul_loop 1 args s

/-- The dividing loop of `builtin_div`: a later argument that is a
non-integer or zero is diagnosed and yields 0; division is the C `/`,
truncating toward zero. -/
def div_loop (result : Int) (args : Obj) (s : St) : Obj × St :=
  if is_nil args then make_int result s
  else
    match args with
    | .consO _ a rest =>
      match a with
      | .intO _ n =>
        if n = 0 then make_int 0 (addDiag "/: division by zero or bad argument" s)
        else div_loop (Int.tdiv result n) rest s
      | _ => make_int 0 (addDiag "/: division by zero or bad argument" s)
    | _ =>
      make_int 0 (addDiag "/: division by zero or bad argument" (addDiag "CAR: not a cons cell" s))

/-- The function `builtin_div`: no arguments yield 1, a non-integer first argument
silently yields 1, otherwise fold division from the left. -/
def builtin_div (args _env : Obj) (s : St) : Obj × St :=
  if is_nil args then make_int 1 s
  else
    let (first, s1) := carF args s
    match first with
    | .intO _ n =>
      let (d, s2) := cdrF args s1
      div_loop n d s2
    | _ => make_int 1 s1

/-- The function `builtin_car`. -/
def builtin_car (args _env : Obj) (s : St) : Obj × St :=
  if is_nil args then (nilObj, s)
  else
    let (a, s1) := carF args s
    carF a s1

/-- The function `builtin_cdr`. -/
def builtin_cdr (args _env : Obj) (s : St) : Obj × St :=
  if is_nil args then (nilObj, s)
  else
    let (a, s1) := carF args s
    cdrF a s1

/-- The function `builtin_cons`. -/
def builtin_cons (args _env : Obj) (s : St) : Obj × St :=
  if is_nil args then (nilObj, s)
  else
    let (d, s1) := cdrF args s
    if is_nil d then (nilObj, s1)
    else
      let (a, s2) := carF args s1
      let (d2, s3) := cdrF args s2
      let (b, s4) := carF d2 s3
      consM a b s4

/-- The function `builtin_eq`: fewer than two arguments yield nil; different types yield
nil; two integers compare by numeric value; anything else compares by
pointer identity. -/
def builtin_eq (args _env : Obj) (s : St) : Obj × St :=
  if is_nil args then (nilObj, s)
  else
    let (d, s1) := cdrF args s
    if is_nil d then (nilObj, s1)
    else
      let (a, s2) := carF args s1
      let (d2, s3) := cdrF args s2
      let (b, s4) := carF d2 s3
      if objType a ≠ objType b then (nilObj, s4)
      else if objType a = CTag.tInt then
        (if intVal a = intVal b then tObj else nilObj, s4)
      else (if a = b then tObj else nilObj, s4)

/-- The function `builtin_lt`. -/
def builtin_lt (args _env : Obj) (s : St) : Obj × St :=
  if is_nil args then (nilObj, s)
  else
    let (d, s1) := cdrF args s
    if is_nil d then (nilObj, s1)
    else
      let (a, s2) := carF args s1
      let (d2, s3) := cdrF args s2
      let (b, s4) := carF d2 s3
      if objType a ≠ CTag.tInt ∨ objType b ≠ CTag.tInt then (nilObj, s4)
      else (if intVal a < intVal b then tObj else nilObj, s4)

/-- The printing loop of `builtin_print`: each argument followed by a
newline on `stdout`; the result is nil. -/
def print_loop (args : Obj) (s : St) : Obj × St :=
  if is_nil args then (nilObj, s)
  else
    match args with
    | .consO _ a rest => print_loop rest (addOut (print_obj a ++ "\n") s)
    | _ =>
      (nilObj,
        addDiag "CDR: not a cons cell" (addOut "nil\n" (addDiag "CAR: not a cons cell" s)))

def builtin_print (args _env : Obj) (s : St) : Obj × St := print_loop args s

/-- Dispatch a stored function pointer. -/
def applyBuiltin : BName → Obj → Obj → St → Obj × St
  | .bCar => builtin_car
  | .bCdr => builtin_cdr
  | .bCons => builtin_cons
  | .bAdd => builtin_add
  | .bSub => builtin_sub
  | .bMul => builtin_mul
  | .bDiv => builtin_div
  | .bEq => builtin_eq
  | .bLt => builtin_lt
  | .bPrint => builtin_print

mutual

/-- The function `eval`.  Recursion is fuelled (the source recursion is bounded only by
the host stack); at fuel 0 the result is nil, and every theorem below
supplies sufficient fuel.  Arguments of special forms are re-read through
the `car`/`cdr` accessor functions exactly as the source does, including
the recomputation of `cdr(cdr(args))` in the else branch of `if` and of the
`cdr` chains in `defun`. -/
def eval : Nat → Obj → Obj → St → Obj × St
  | 0, _, _, s => (nilObj, s)
  | fuel + 1, expr, env, s =>
    match expr with
    | .nullO => (nilObj, s)
    | .intO i n => (Obj.intO i n, s)
    | .symO _ nm =>
      if nm = "nil" then (nilObj, s)
      else if nm = "t" then (tObj, s)
      else
        match env_lookup env nm with
        | some v => (v, s)
        | none =>
          match env_lookup s.glob nm with
          | some v => (v, s)
          | none => (nilObj, addDiag ("Undefined symbol: " ++ nm) s)
    | .consO _ op args =>
      if isSymNamed op "quote" then carF args s
      else if isSymNamed op "if" then
        let (c0, s1) := carF args s
        let (cond, s2) := eval fuel c0 env s1
        if is_nil cond = false then
          let (d1, s3) := cdrF args s2
          let (tb, s4) := carF d1 s3
          eval fuel tb env s4
        else
          let (d1, s3) := cdrF args s2
          let (d2, s4) := cdrF d1 s3
          if is_nil d2 = false then
            let (d1b, s5) := cdrF args s4
            let (d2b, s6) := cdrF d1b s5
            let (eb, s7) := carF d2b s6
            eval fuel eb env s7
          else (nilObj, s4)
      else if isSymNamed op "lambda" then
        let (params, s1) := carF args s
        let (d1, s2) := cdrF args s1
        let (body, s3) := carF d1 s2
        make_lambda params body env s3
      else if isSymNamed op "defun" then
        let (nm, s1) := carF args s
        let (d1, s2) := cdrF args s1
        let (params, s3) := carF d1 s2
        let (d1b, s4) := cdrF args s3
        let (d2b, s5) := cdrF d1b s4
        let (body, s6) := carF d2b s5
        let (lam, s7) := make_lambda params body s6.glob s6
        let (g, s8) := env_define s7.glob (symName nm) lam s7
        (nm, { s8 with glob := g })
      else
        let (func, s1) := eval fuel op env s
        match func with
        | .funcO _ f =>
          let (evaledArgs, s2) := eval_list fuel args env s1
          applyBuiltin f evaledArgs env s2
        | .lamO _ params body cenv =>
          let (evaledArgs, s2) := eval_list fuel args env s1
          let (newEnv, s3) := bind_params cenv params evaledArgs s2
          eval fuel body newEnv s3
        | _ => (nilObj, addDiag "Not a function" s1)
    | .funcO i f => (Obj.funcO i f, s)
    | .lamO i p b e => (Obj.lamO i p b e, s)

/-- The function `eval_list`: evaluate each element left to right and cons up the
results. -/
def eval_list : Nat → Obj → Obj → St → Obj × St
  | 0, _, _, s => (nilObj, s)
  | fuel + 1, list, env, s =>
    if is_nil list then (nilObj, s)
    else
      let (h0, s1) := carF list s
      let (hv, s2) := eval fuel h0 env s1
      let (t0, s3) := cdrF list s2
      let (tv, s4) := eval_list fuel t0 env s3
      consM hv tv s4

end

/-- One `env_define` of `init_env`: the function object is created first,
then bound. -/
def defineBuiltin (name : String) (f : BName) (env : Obj) (s : St) : Obj × St :=
  let (fo, s1) := make_func f s
  env_define env name fo s1

/-- The function `init_env`: the ten primitives, bound in source order. -/
def init_env (s : St) : Obj × St :=
  let (e1, s1) := defineBuiltin "car" BName.bCar nilObj s
  let (e2, s2) := defineBuiltin "cdr" BName.bCdr e1 s1
  let (e3, s3) := defineBuiltin "cons" BName.bCons e2 s2
  let (e4, s4) := defineBuiltin "+" BName.bAdd e3 s3
  let (e5, s5) := defineBuiltin "-" BName.bSub e4 s4
  let (e6, s6) := defineBuiltin "*" BName.bMul e5 s5
  let (e7, s7) := defineBuiltin "/" BName.bDiv e6 s6
  let (e8, s8) := defineBuiltin "eq" BName.bEq e7 s7
  let (e9, s9) := defineBuiltin "<" BName.bLt e8 s8
  defineBuiltin "print" BName.bPrint e9 s9

/-- The state right after `repl` has allocated the nil and t singletons
(addresses 0 and 1). -/
def st0 : St := { nextId := 2, glob := nilObj, diags := [], out := "" }

/-- The state after `init_env` has built the global environment and
`global_env_ptr` points at it. -/
def initSt : St :=
  let (g, s) := init_env st0
  { s with glob := g }

/-- One iteration of the REPL body: parse the input, and unless the parse
returned `NULL`, evaluate against the current global environment and print
the result followed by a newline.  The parse fuel `2 * length + 2` is
always sufficient (each unit of parser nesting consumes input). -/
def replStep (fuel : Nat) (input : String) (s : St) : St :=
  let (expr, _, s1) := parse_expr (2 * input.data.length + 2) input.data s
  match expr with
  | .nullO => s1
  | _ =>
    let (r, s2) := eval fuel expr s1.glob s1
    addOut (print_obj r ++ "\n") s2

/-- Run the REPL over a list of balanced input chunks. -/
def runRepl (fuel : Nat) : List String → St → St
  | [], s => s
  | l :: ls, s => runRepl fuel ls (replStep fuel l s)

/-- A whole session from the interpreter's initial state. -/
def session (fuel : Nat) (lines : List String) : St :=
  runRepl fuel lines initSt

/-- Structural equality of values: equal tags and, componentwise, equal
numbers, equal symbol names, equal function pointers and structurally equal
subtrees — allocation identity (the pointer) is ignored. -/
def structEq : Obj → Obj → Bool
  | .nullO, .nullO => true
  | .intO _ m, .intO _ n => m = n
  | .symO _ a, .symO _ b => a = b
  | .consO _ a d, .consO _ b e => structEq a b && structEq d e
  | .funcO _ f, .funcO _ g => f = g
  | .lamO _ p b e, .lamO _ q c f => structEq p q && structEq b c && structEq e f
  | _, _ => false

/-- The three-argument `if` form `(if c t e)`. -/
def ifExpr3 (ia ib ic id1 ie : Nat) (c t e : Obj) : Obj :=
  Obj.consO ia (Obj.symO ib "if")
    (Obj.consO ic c (Obj.consO id1 t (Obj.consO ie e nilObj)))

/-- The two-argument `if` form `(if c t)`. -/
def ifExpr2 (ia ib ic id1 : Nat) (c t : Obj) : Obj :=
  Obj.consO ia (Obj.symO ib "if") (Obj.consO ic c (Obj.consO id1 t nilObj))

/-- The elements of a nil-terminated object list. -/
def listElems : Obj → List Obj
  | .consO _ a d => a :: listElems d
  | _ => []

/-- Whether an object is a proper (nil-terminated) list. -/
def isProperList : Obj → Bool
  | .consO _ _ d => isProperList d
  | o => is_nil o

/-- Extend an environment with (name, value) bindings from left to right,
each prepended by `env_define`, exactly as the closure-binding loop does. -/
def extend_zip : Obj → List (String × Obj) → St → Obj × St
  | env, [], s => (env, s)
  | env, (nm, v) :: rest, s =>
    let (e1, s1) := env_define env nm v s
    extend_zip e1 rest s1

/-- Whether the operator position would be taken as a special form. -/
def isSpecialForm (o : Obj) : Bool :=
  isSymNamed o "quote" || isSymNamed o "if" || isSymNamed o "lambda" || isSymNamed o "defun"

/-- The first element the arithmetic loops reject: scanning an argument
chain from the front past integer elements, the first non-Integer element,
if any (none when every element up to the end of the chain is an
Integer). -/
def firstNonInt : Obj → Option Obj
  | .consO _ a rest =>
    match a with
    | .intO _ _ => firstNonInt rest
    | _ => some a
  | _ => none

/-- The first element the division loop rejects: scanning past nonzero
integer elements, the first element that is a non-Integer or the integer
zero, if any. -/
def firstDivBad : Obj → Option Obj
  | .consO _ a rest =>
    match a with
    | .intO i n => if n = 0 then some (Obj.intO i n) else firstDivBad rest
    | _ => some a
  | _ => none

/-- A character that the atom-reading loop consumes: neither whitespace nor
a parenthesis. -/
def atomChar (c : Char) : Bool := !(isSpaceC c || c = '(' || c = ')')

/-- An input whose first character (if any) stops the atom-reading loop. -/
def headNotAtom : List Char → Prop
  | [] => True
  | c :: _ => atomChar c = false

/-- Modelled from the claim's wording: the token shape of an integer
literal — an optional leading minus followed by at least one decimal digit
and nothing else. -/
def specIntShape (cs : List Char) : Prop :=
  ∃ ds : List Char, ds ≠ [] ∧ (∀ c ∈ ds, isDigitC c = true) ∧ (cs = ds ∨ cs = '-' :: ds)

/-- Modelled from the claim's wording: the base-10 positional value of a
digit string, most significant digit first. -/
def decDigitsVal : List Char → Int
  | [] => 0
  | c :: ds => ((c.toNat - 48 : Nat) : Int) * 10 ^ ds.length + decDigitsVal ds

/-- Modelled from the claim's wording: the base-10 value of an integer
token, negated when a minus sign leads. -/
def specIntValue (cs : List Char) : Int :=
  if cs.head? = some '-' then - decDigitsVal (cs.drop 1) else decDigitsVal cs

/-- A symbol name that the printer emits as a re-readable atom token:
nonempty, made of atom characters, not number-shaped, not the bare quote
character, and not starting with the comment character.  Every symbol the
reader itself can produce satisfies this. -/
def wfSymName (nm : String) : Bool :=
  !nm.data.isEmpty && nm.data.all atomChar && !isNumTok nm.data &&
    !(decide (nm = quoteTok)) && !(decide (nm.data.head? = some ';'))

mutual

/-- The round-trippable value class of the claim: integers, symbols with
well-formed names, and proper lists of such values (quote forms are plain
lists whose head is the symbol `quote`). -/
def wfVal : Obj → Bool
  | .intO _ _ => true
  | .symO _ nm => wfSymName nm
  | .consO _ a d => wfVal a && wfListTail d
  | _ => false

/-- The tail of a proper round-trippable list: either the nil singleton or
another pair of a round-trippable head and tail. -/
def wfListTail : Obj → Bool
  | .consO _ a d => wfVal a && wfListTail d
  | o => is_nil o

end

/-- The round-trip property for one expression: parsing the printed form
followed by any non-atom-headed remainder consumes exactly the printed
form, returns a structurally equal value, and emits no diagnostic. -/
def parseRoundE (v : Obj) : Prop :=
  ∀ (r : List Char) (s : St) (fuel : Nat),
    2 * ((print_obj v).data.length + r.length) + 1 ≤ fuel → headNotAtom r →
    ∃ v2 s2, parse_expr fuel ((print_obj v).data ++ r) s = (v2, r, s2) ∧
      structEq v2 v = true ∧ s2.diags = s.diags

/-- The round-trip property for a printed list tail: `parse_list` stops at
the closing paren, leaving it unconsumed, and emits no diagnostic. -/
def parseRoundL (v : Obj) : Prop :=
  ∀ (r : List Char) (s : St) (fuel : Nat),
    2 * ((print_cdr v).data.length + r.length + 1) + 2 ≤ fuel →
    ∃ v2 s2, parse_list fuel ((print_cdr v).data ++ ')' :: r) s = (v2, ')' :: r, s2) ∧
      structEq v2 v = true ∧ s2.diags = s.diags

/-- A concrete round-trip value: the list `(1 (quote ab) -7)`. -/
def c6WitnessVal : Obj :=
  Obj.consO 0 (Obj.intO 0 1)
    (Obj.consO 0
      (Obj.consO 0 (Obj.symO 0 "quote") (Obj.consO 0 (Obj.symO 0 "ab") nilObj))
      (Obj.consO 0 (Obj.intO 0 (-7)) nilObj))

/-! ## Claim C10 -/

/-- C10: applying the built-in `/` to the empty argument list returns the
Integer 1 and emits no diagnostic — in every state the result is a fresh
integer object 1 and the only state change is the allocation counter (so
`stderr` is untouched), and the session `(/)` prints `1` with an empty
diagnostic list. -/
theorem div_on_empty_args_returns_one_silently :
    (∀ env s, builtin_div nilObj env s = (Obj.intO s.nextId 1, bumpId s)) ∧
    (session 10 ["(/)"]).out = "1\n" ∧ (session 10 ["(/)"]).diags = [] := by
  refine ⟨fun env s => rfl, rfl, rfl⟩

/-! ## Claim C1 -/

/-- C1 fails on the code (code bug): `builtin_eq` compares symbols by
pointer identity while the reader allocates a fresh symbol object for every
token, so two same-named symbol arguments that are distinct objects compare
to nil, and the session `(eq (quote a) (quote a))` prints `nil`, not `t`
(the spec mandates string-name equality for `eq` on symbols). -/
theorem eq_on_distinct_same_name_symbols_yields_nil :
    (session 100 ["(eq (quote a) (quote a))"]).out = "nil\n" ∧
    (∀ i j nm ci cj env s, i ≠ j →
      builtin_eq (Obj.consO ci (Obj.symO i nm) (Obj.consO cj (Obj.symO j nm) nilObj)) env s
        = (nilObj, s)) := by
  constructor
  · rfl
  · intro i j nm ci cj env s hij
    simp only [builtin_eq, is_nil, carF, cdrF, objType, intVal, nilObj]
    simp [Obj.symO.injEq, hij]

/-- Witness for the C1 theorem: two distinct symbol objects both named `a`
compare to nil under `eq`. -/
theorem eq_on_distinct_same_name_symbols_yields_nil_witness :
    builtin_eq (Obj.consO 7 (Obj.symO 5 "a") (Obj.consO 8 (Obj.symO 6 "a") nilObj)) nilObj st0
      = (nilObj, st0) :=
  eq_on_distinct_same_name_symbols_yields_nil.2 5 6 "a" 7 8 nilObj st0 (by decide)

/-! ## Claim C2 -/

/-- C2 fails on the code (code bug): the reader has no special case for the
token `nil` — it allocates a fresh symbol object with that name, which is
never the nil singleton once the singletons are allocated (any state with a
nonzero allocation counter), so a parsed `nil` is not identical to the nil
obtained as the tail of a single-element list, observably:
`(eq (quote nil) (cdr (quote (1))))` prints `nil` instead of `t`. -/
theorem parsed_nil_is_not_the_singleton :
    (∀ s : St, (parse_expr 2 "nil".data s).1 = Obj.symO s.nextId "nil") ∧
    (∀ s : St, s.nextId ≠ 0 → (parse_expr 2 "nil".data s).1 ≠ nilObj) ∧
    initSt.nextId ≠ 0 ∧
    (session 100 ["(eq (quote nil) (cdr (quote (1))))"]).out = "nil\n" := by
  refine ⟨fun s => rfl, ?_, by decide, rfl⟩
  intro s h
  have hp : (parse_expr 2 "nil".data s).1 = Obj.symO s.nextId "nil" := rfl
  rw [hp]
  simp [nilObj, h]

/-- Witness for the C2 theorem at the interpreter's initial state: the
freshly parsed `nil` is a different object from the singleton. -/
theorem parsed_nil_is_not_the_singleton_witness :
    (parse_expr 2 "nil".data initSt).1 ≠ nilObj :=
  parsed_nil_is_not_the_singleton.2.1 initSt (by decide)

/-! ## Claim C3 (counterexample part) -/

/-- C4 fails on the code: `(* t)` returns the identity 1 but emits NO
diagnostic, and `(/ t 4)` — a non-integer argument to `/` — silently
returns 1, not 0 with a diagnostic. -/
theorem arith_non_integer_silent_counterexample :
    (session 100 ["(* t)"]).out = "1\n" ∧ (session 100 ["(* t)"]).diags = [] ∧
    (session 100 ["(/ t 4)"]).out = "1\n" ∧ (session 100 ["(/ t 4)"]).diags = [] := by
  exact ⟨rfl, rfl, rfl, rfl⟩

/-- The summing loop diagnoses and returns 0 when it reaches the first
non-Integer, wherever it occurs. -/
theorem add_loop_firstNonInt (args : Obj) :
    ∀ (sum : Int) (s : St) (a : Obj), firstNonInt args = some a →
      add_loop sum args s = make_int 0 (addDiag "+: expected integer" s) := by
  induction args with
  | consO i x rest ihx ihrest =>
    intro sum s a h
    cases x with
    | intO j n =>
      have h2 : firstNonInt rest = some a := h
      have hstep : add_loop sum (Obj.consO i (Obj.intO j n) rest) s
          = add_loop (sum + n) rest s := by
        simp [add_loop, is_nil, nilObj]
      rw [hstep]
      exact ihrest (sum + n) s a h2
    | nullO => simp [add_loop, is_nil, nilObj]
    | symO _ _ => simp [add_loop, is_nil, nilObj]
    | consO _ _ _ => simp [add_loop, is_nil, nilObj]
    | funcO _ _ => simp [add_loop, is_nil, nilObj]
    | lamO _ _ _ _ => simp [add_loop, is_nil, nilObj]
  | nullO => intro _ _ _ h; simp [firstNonInt] at h
  | intO _ _ => intro _ _ _ h; simp [firstNonInt] at h
  | symO _ _ => intro _ _ _ h; simp [firstNonInt] at h
  | funcO _ _ => intro _ _ _ h; simp [firstNonInt] at h
  | lamO _ _ _ _ => intro _ _ _ h; simp [firstNonInt] at h

/-- The subtracting loop silently returns 0 when it reaches the first
non-Integer, wherever it occurs. -/
theorem sub_loop_firstNonInt (args : Obj) :
    ∀ (r : Int) (s : St) (a : Obj), firstNonInt args = some a →
      sub_loop r args s = make_int 0 s := by
  induction args with
  | consO i x rest ihx ihrest =>
    intro r s a h
    cases x with
    | intO j n =>
      have h2 : firstNonInt rest = some a := h
      have hstep : sub_loop r (Obj.consO i (Obj.intO j n) rest) s
          = sub_loop (r - n) rest s := by
        simp [sub_loop, is_nil, nilObj]
      rw [hstep]
      exact ihrest (r - n) s a h2
    | nullO => simp [sub_loop, is_nil, nilObj]
    | symO _ _ => simp [sub_loop, is_nil, nilObj]
    | consO _ _ _ => simp [sub_loop, is_nil, nilObj]
    | funcO _ _ => simp [sub_loop, is_nil, nilObj]
    | lamO _ _ _ _ => simp [sub_loop, is_nil, nilObj]
  | nullO => intro _ _ _ h; simp [firstNonInt] at h
  | intO _ _ => intro _ _ _ h; simp [firstNonInt] at h
  | symO _ _ => intro _ _ _ h; simp [firstNonInt] at h
  | funcO _ _ => intro _ _ _ h; simp [firstNonInt] at h
  | lamO _ _ _ _ => intro _ _ _ h; simp [firstNonInt] at h

/-- The multiplying loop silently returns 1 when it reaches the first
non-Integer, wherever it occurs. -/
theorem mul_loop_firstNonInt (args : Obj) :
    ∀ (product : Int) (s : St) (a : Obj), firstNonInt args = some a →
      mul_loop product args s = make_int 1 s := by
  induction args with
  | consO i x rest ihx ihrest =>
    intro p s a h
    cases x with
    | intO j n =>
      have h2 : firstNonInt rest = some a := h
      have hstep : mul_loop p (Obj.consO i (Obj.intO j n) rest) s
          = mul_loop (p * n) rest s := by
        simp [mul_loop, is_nil, nilObj]
      rw [hstep]
      exact ihrest (p * n) s a h2
    | nullO => simp [mul_loop, is_nil, nilObj]
    | symO _ _ => simp [mul_loop, is_nil, nilObj]
    | consO _ _ _ => simp [mul_loop, is_nil, nilObj]
    | funcO _ _ => simp [mul_loop, is_nil, nilObj]
    | lamO _ _ _ _ => simp [mul_loop, is_nil, nilObj]
  | nullO => intro _ _ _ h; simp [firstNonInt] at h
  | intO _ _ => intro _ _ _ h; simp [firstNonInt] at h
  | symO _ _ => intro _ _ _ h; simp [firstNonInt] at h
  | funcO _ _ => intro _ _ _ h; simp [firstNonInt] at h
  | lamO _ _ _ _ => intro _ _ _ h; simp [firstNonInt] at h

/-- The dividing loop diagnoses and returns 0 when it reaches the first
later argument that is a non-Integer or zero, wherever it occurs. -/
theorem div_loop_firstDivBad (rest : Obj) :
    ∀ (r : Int) (s : St) (b : Obj), firstDivBad rest = some b →
      div_loop r rest s
        = make_int 0 (addDiag "/: division by zero or bad argument" s) := by
  induction rest with
  | consO i x tail ihx ihtail =>
    intro r s b h
    cases x with
    | intO j n =>
      by_cases hz : n = 0
      · subst hz
        simp [div_loop, is_nil, nilObj]
      · have h2 : firstDivBad tail = some b := by
          simpa [firstDivBad, hz] using h
        have hstep : div_loop r (Obj.consO i (Obj.intO j n) tail) s
            = div_loop (Int.tdiv r n) tail s := by
          simp [div_loop, is_nil, nilObj, hz]
        rw [hstep]
        exact ihtail (Int.tdiv r n) s b h2
    | nullO => simp [div_loop, is_nil, nilObj]
    | symO _ _ => simp [div_loop, is_nil, nilObj]
    | consO _ _ _ => simp [div_loop, is_nil, nilObj]
    | funcO _ _ => simp [div_loop, is_nil, nilObj]
    | lamO _ _ _ _ => simp [div_loop, is_nil, nilObj]
  | nullO => intro _ _ _ h; simp [firstDivBad] at h
  | intO _ _ => intro _ _ _ h; simp [firstDivBad] at h
  | symO _ _ => intro _ _ _ h; simp [firstDivBad] at h
  | funcO _ _ => intro _ _ _ h; simp [firstDivBad] at h
  | lamO _ _ _ _ => intro _ _ _ h; simp [firstDivBad] at h

/-- C4 as amended: wherever the first non-Integer occurs in the argument
list (after any all-Integer prefix), `+` emits its one-line diagnostic and
returns 0 while `-` and `*` silently return 0 and 1; `/` silently returns
1 when its FIRST argument is a non-Integer, and emits its diagnostic and
returns 0 when any later argument is a non-Integer or zero. -/
theorem arith_non_integer_amended :
    (∀ (args env : Obj) (s : St) (a : Obj), firstNonInt args = some a →
      builtin_add args env s
        = (Obj.intO s.nextId 0, bumpId (addDiag "+: expected integer" s))) ∧
    (∀ (args env : Obj) (s : St) (a : Obj), firstNonInt args = some a →
      builtin_sub args env s = (Obj.intO s.nextId 0, bumpId s)) ∧
    (∀ (args env : Obj) (s : St) (a : Obj), firstNonInt args = some a →
      builtin_mul args env s = (Obj.intO s.nextId 1, bumpId s)) ∧
    (∀ (i : Nat) (a rest env : Obj) (s : St), objType a ≠ CTag.tInt →
      builtin_div (Obj.consO i a rest) env s = (Obj.intO s.nextId 1, bumpId s)) ∧
    (∀ (i k : Nat) (m : Int) (rest env : Obj) (s : St) (b : Obj),
      firstDivBad rest = some b →
      builtin_div (Obj.consO i (Obj.intO k m) rest) env s
        = (Obj.intO s.nextId 0,
           bumpId (addDiag "/: division by zero or bad argument" s))) := by
  refine ⟨?_, ?_, ?_, ?_, ?_⟩
  · intro args env s a h
    show add_loop 0 args s = _
    rw [add_loop_firstNonInt args 0 s a h]
    rfl
  · intro args env s a h
    cases args with
    | consO i x rest =>
      cases x with
      | intO j n =>
        have h2 : firstNonInt rest = some a := h
        cases rest with
        | consO i2 y rest2 =>
          have hstep : builtin_sub (Obj.consO i (Obj.intO j n) (Obj.consO i2 y rest2)) env s
              = sub_loop n (Obj.consO i2 y rest2) s := by
            simp [builtin_sub, is_nil, nilObj, carF, cdrF]
          rw [hstep, sub_loop_firstNonInt _ n s a h2]
          rfl
        | nullO => simp [firstNonInt] at h2
        | intO _ _ => simp [firstNonInt] at h2
        | symO _ _ => simp [firstNonInt] at h2
        | funcO _ _ => simp [firstNonInt] at h2
        | lamO _ _ _ _ => simp [firstNonInt] at h2
      | nullO => rfl
      | symO _ _ => rfl
      | consO _ _ _ => rfl
      | funcO _ _ => rfl
      | lamO _ _ _ _ => rfl
    | nullO => simp [firstNonInt] at h
    | intO _ _ => simp [firstNonInt] at h
    | symO _ _ => simp [firstNonInt] at h
    | funcO _ _ => simp [firstNonInt] at h
    | lamO _ _ _ _ => simp [firstNonInt] at h
  · intro args env s a h
    show mul_loop 1 args s = _
    rw [mul_loop_firstNonInt args 1 s a h]
    rfl
  · intro i a rest env s ha
    cases a with
    | intO _ _ => exact absurd rfl ha
    | nullO => rfl
    | symO _ _ => rfl
    | consO _ _ _ => rfl
    | funcO _ _ => rfl
    | lamO _ _ _ _ => rfl
  · intro i k m rest env s b h
    show div_loop m rest s = _
    rw [div_loop_firstDivBad rest m s b h]
    rfl

/-- Witness for the amended C4 theorem: the non-Integer in second position
in `(+ 1 t)`, `(- 1 t)` and `(* 1 t)`, a non-Integer first argument of `/`,
and a zero divisor in third position of `(/ 10 2 0)`. -/
theorem arith_non_integer_amended_witness :
    builtin_add (Obj.consO 1 (Obj.intO 2 1) (Obj.consO 3 tObj nilObj)) nilObj st0
      = (Obj.intO st0.nextId 0, bumpId (addDiag "+: expected integer" st0)) ∧
    builtin_sub (Obj.consO 1 (Obj.intO 2 1) (Obj.consO 3 tObj nilObj)) nilObj st0
      = (Obj.intO st0.nextId 0, bumpId st0) ∧
    builtin_mul (Obj.consO 1 (Obj.intO 2 1) (Obj.consO 3 tObj nilObj)) nilObj st0
      = (Obj.intO st0.nextId 1, bumpId st0) ∧
    builtin_div (Obj.consO 4 tObj nilObj) nilObj st0
      = (Obj.intO st0.nextId 1, bumpId st0) ∧
    builtin_div
        (Obj.consO 5 (Obj.intO 6 10)
          (Obj.consO 7 (Obj.intO 8 2) (Obj.consO 9 (Obj.intO 10 0) nilObj))) nilObj st0
      = (Obj.intO st0.nextId 0,
         bumpId (addDiag "/: division by zero or bad argument" st0)) :=
  ⟨arith_non_integer_amended.1 _ nilObj st0 tObj rfl,
   arith_non_integer_amended.2.1 _ nilObj st0 tObj rfl,
   arith_non_integer_amended.2.2.1 _ nilObj st0 tObj rfl,
   arith_non_integer_amended.2.2.2.1 4 tObj nilObj nilObj st0 (by decide),
   arith_non_integer_amended.2.2.2.2 5 6 10 _ nilObj st0 (Obj.intO 10 0) rfl⟩

/-! ## Claim C5 -/

/-- C5: `(defun name params body)` builds a Closure whose captured
environment is the current global environment, prepends a binding of `name`
to that Closure onto the global environment, and returns the Symbol
`name` — for every well-shaped defun form, every local environment and every
state; and the concrete session defining `fact` and evaluating `(fact 5)`
prints `fact` then `120` with no diagnostics. -/
theorem defun_installs_global_closure_and_fact5 :
    (∀ (fuel k ia ib ic id1 ie : Nat) (nm : String) (ps bd env : Obj) (s : St),
      eval (fuel + 1)
        (Obj.consO ia (Obj.symO ib "defun")
          (Obj.consO ic (Obj.symO k nm)
            (Obj.consO id1 ps (Obj.consO ie bd nilObj)))) env s
        = (Obj.symO k nm,
           { s with nextId := s.nextId + 4,
                    glob := Obj.consO (s.nextId + 3)
                      (Obj.consO (s.nextId + 2) (Obj.symO (s.nextId + 1) nm)
                        (Obj.lamO s.nextId ps bd s.glob)) s.glob })) ∧
    (session 30 ["(defun fact (n) (if (< n 2) 1 (* n (fact (- n 1)))))", "(fact 5)"]).out
      = "fact\n120\n" ∧
    (session 30 ["(defun fact (n) (if (< n 2) 1 (* n (fact (- n 1)))))", "(fact 5)"]).diags
      = [] := by
  refine ⟨fun fuel k ia ib ic id1 ie nm ps bd env s => rfl, rfl, rfl⟩

/-! ## Claim C8 -/

/-- C8: `(if c t e)` first evaluates `c` in the current environment; when
the result is non-nil the whole form reduces to the evaluation of `t` alone
(the right-hand side does not mention `e`, so the untaken branch is never
evaluated); when the result is nil and a third element exists the form
reduces to the evaluation of `e` alone (not mentioning `t`); and when the
result is nil and there is no third element the result is nil. -/
theorem if_evaluates_exactly_one_branch
    (fuel ia ib ic id1 ie : Nat) (c tb eb env : Obj) (s : St) (cv : Obj) (s2 : St)
    (h : eval fuel c env s = (cv, s2)) :
    (is_nil cv = false →
      eval (fuel + 1) (ifExpr3 ia ib ic id1 ie c tb eb) env s = eval fuel tb env s2) ∧
    (is_nil cv = true →
      eval (fuel + 1) (ifExpr3 ia ib ic id1 ie c tb eb) env s = eval fuel eb env s2) ∧
    (is_nil cv = true →
      eval (fuel + 1) (ifExpr2 ia ib ic id1 c tb) env s = (nilObj, s2)) := by
  refine ⟨fun hnil => ?_, fun hnil => ?_, fun hnil => ?_⟩ <;>
    simp only [ifExpr3, ifExpr2, eval, isSymNamed, carF, cdrF, h, hnil] <;>
    simp [is_nil, nilObj]

/-- Witness for the `if` theorem: a true condition takes the then branch, a
nil condition takes the else branch, and a nil condition with no else
branch yields nil. -/
theorem if_evaluates_exactly_one_branch_witness :
    (eval 2 (ifExpr3 1 2 3 4 5 tObj (Obj.intO 8 7) (Obj.intO 7 3)) nilObj st0
      = eval 1 (Obj.intO 8 7) nilObj st0) ∧
    (eval 2 (ifExpr3 1 2 3 4 5 (Obj.symO 33 "nil") (Obj.intO 8 7) (Obj.intO 7 3)) nilObj st0
      = eval 1 (Obj.intO 7 3) nilObj st0) ∧
    (eval 2 (ifExpr2 1 2 3 4 (Obj.symO 33 "nil") (Obj.intO 8 7)) nilObj st0
      = (nilObj, st0)) :=
  ⟨(if_evaluates_exactly_one_branch 1 1 2 3 4 5 tObj (Obj.intO 8 7) (Obj.intO 7 3)
      nilObj st0 tObj st0 rfl).1 (by decide),
   (if_evaluates_exactly_one_branch 1 1 2 3 4 5 (Obj.symO 33 "nil") (Obj.intO 8 7)
      (Obj.intO 7 3) nilObj st0 nilObj st0 rfl).2.1 (by decide),
   (if_evaluates_exactly_one_branch 1 1 2 3 4 5 (Obj.symO 33 "nil") (Obj.intO 8 7)
      (Obj.intO 7 3) nilObj st0 nilObj st0 rfl).2.2 (by decide)⟩

/-! ## Claim C9 -/

/-- The binding loop is the left-to-right extension by the ZIP of parameter
names with argument values: `List.zip` truncates at the shorter list, which
is exactly the loop's stopping condition. -/
theorem bind_params_eq_extend_zip (ps : Obj) :
    ∀ (vs E : Obj) (s : St), isProperList ps = true → isProperList vs = true →
      bind_params E ps vs s
        = extend_zip E (List.zip ((listElems ps).map symName) (listElems vs)) s := by
  induction ps with
  | consO i p ps2 iha ihd =>
    intro vs E s hps hvs
    cases vs with
    | consO j v vs2 =>
      have hps2 : isProperList ps2 = true := hps
      have hvs2 : isProperList vs2 = true := hvs
      simp only [bind_params, is_nil, listElems, List.map_cons, List.zip_cons_cons,
        extend_zip, nilObj]
      simp only [decide_eq_true_eq, reduceCtorEq, Bool.or_self, if_false]
      exact ihd vs2 _ _ hps2 hvs2
    | nullO =>
      simp [isProperList, is_nil, nilObj] at hvs
    | intO _ _ =>
      simp [isProperList, is_nil, nilObj] at hvs
    | symO a b =>
      have hnil : is_nil (Obj.symO a b) = true := by
        simpa only [isProperList] using hvs
      simp [bind_params, hnil, listElems, extend_zip]
    | funcO _ _ =>
      simp [isProperList, is_nil, nilObj] at hvs
    | lamO _ _ _ _ =>
      simp [isProperList, is_nil, nilObj] at hvs
  | nullO =>
    intro vs E s hps hvs
    simp [isProperList, is_nil, nilObj] at hps
  | intO _ _ =>
    intro vs E s hps hvs
    simp [isProperList, is_nil, nilObj] at hps
  | symO a b =>
    intro vs E s hps hvs
    have hnil : is_nil (Obj.symO a b) = true := by
      simpa only [isProperList] using hps
    cases vs <;> simp [bind_params, hnil, listElems, extend_zip]
  | funcO _ _ =>
    intro vs E s hps hvs
    simp [isProperList, is_nil, nilObj] at hps
  | lamO _ _ _ _ =>
    intro vs E s hps hvs
    simp [isProperList, is_nil, nilObj] at hps

/-- A name bound by none of the zipped pairs looks up, in the extended
environment, to whatever it was in the base environment: surplus
parameters receive no binding from the loop. -/
theorem extend_zip_lookup_preserved (pairs : List (String × Obj)) :
    ∀ (E : Obj) (nm : String) (s : St), (∀ p ∈ pairs, p.1 ≠ nm) →
      env_lookup (extend_zip E pairs s).1 nm = env_lookup E nm := by
  induction pairs with
  | nil => intro E nm s _; rfl
  | cons hd tl ih =>
    intro E nm s hall
    obtain ⟨k, v⟩ := hd
    have hk : k ≠ nm := hall (k, v) (List.mem_cons_self _ _)
    have htl : ∀ p ∈ tl, p.1 ≠ nm := fun p hp => hall p (List.mem_cons_of_mem _ hp)
    simp only [extend_zip, env_define, make_symbol, consM]
    rw [ih _ nm _ htl]
    simp [env_lookup, symName, hk]

/-- Applying an operator that evaluates to a Closure: the arguments are
evaluated with `eval_list`, the captured environment is extended by the
binding loop, and the body is evaluated there. -/
theorem eval_apply_lambda (fuel i : Nat) (opE args env : Obj) (s : St)
    (li : Nat) (ps bd cenv : Obj) (s1 : St)
    (hspec : isSpecialForm opE = false)
    (hop : eval fuel opE env s = (Obj.lamO li ps bd cenv, s1)) :
    eval (fuel + 1) (Obj.consO i opE args) env s
      = eval fuel bd
          (bind_params cenv ps (eval_list fuel args env s1).1
            (eval_list fuel args env s1).2).1
          (bind_params cenv ps (eval_list fuel args env s1).1
            (eval_list fuel args env s1).2).2 := by
  simp only [isSpecialForm, Bool.or_eq_false_iff] at hspec
  obtain ⟨⟨⟨h1, h2⟩, h3⟩, h4⟩ := hspec
  simp only [eval, h1, h2, h3, h4, Bool.false_eq_true, if_false, hop]

/-- C9: when a Closure is applied, the body is evaluated in the captured
environment extended by the binding loop (third conjunct), the binding loop
extends by the zip of parameter names with argument values — `List.zip`
stops at the shorter list, so surplus arguments are discarded and surplus
parameters get no binding (first conjunct) — and a name not among the
zipped pairs still looks up to its value in the captured environment alone,
so an unbound surplus parameter's later lookup fails (second conjunct). -/
theorem closure_application_truncates_bindings :
    (∀ (ps vs E : Obj) (s : St), isProperList ps = true → isProperList vs = true →
      bind_params E ps vs s
        = extend_zip E (List.zip ((listElems ps).map symName) (listElems vs)) s) ∧
    (∀ (pairs : List (String × Obj)) (E : Obj) (nm : String) (s : St),
      (∀ p ∈ pairs, p.1 ≠ nm) →
      env_lookup (extend_zip E pairs s).1 nm = env_lookup E nm) ∧
    (∀ (fuel i : Nat) (opE args env : Obj) (s : St) (li : Nat) (ps bd cenv : Obj) (s1 : St),
      isSpecialForm opE = false →
      eval fuel opE env s = (Obj.lamO li ps bd cenv, s1) →
      eval (fuel + 1) (Obj.consO i opE args) env s
        = eval fuel bd
            (bind_params cenv ps (eval_list fuel args env s1).1
              (eval_list fuel args env s1).2).1
            (bind_params cenv ps (eval_list fuel args env s1).1
              (eval_list fuel args env s1).2).2) :=
  ⟨fun ps vs E s hps hvs => bind_params_eq_extend_zip ps vs E s hps hvs,
   fun pairs E nm s h => extend_zip_lookup_preserved pairs E nm s h,
   fun fuel i opE args env s li ps bd cenv s1 hspec hop =>
     eval_apply_lambda fuel i opE args env s li ps bd cenv s1 hspec hop⟩

/-- Witness for the closure-application theorem: a two-parameter closure
`(lambda (x y) y)` applied to the single argument 1 — binding stops after
`x`, the surplus parameter `y` stays unbound, and the lookup of `y` falls
through to the (empty) captured environment. -/
theorem closure_application_truncates_bindings_witness :
    (bind_params nilObj
        (Obj.consO 10 (Obj.symO 11 "x") (Obj.consO 12 (Obj.symO 13 "y") nilObj))
        (Obj.consO 14 (Obj.intO 15 1) nilObj) st0
      = extend_zip nilObj [("x", Obj.intO 15 1)] st0) ∧
    (env_lookup (extend_zip nilObj [("x", Obj.intO 15 1)] st0).1 "y"
      = env_lookup nilObj "y") ∧
    (eval 2
        (Obj.consO 16
          (Obj.lamO 50
            (Obj.consO 10 (Obj.symO 11 "x") (Obj.consO 12 (Obj.symO 13 "y") nilObj))
            (Obj.symO 17 "y") nilObj)
          (Obj.consO 18 (Obj.intO 19 1) nilObj)) nilObj st0
      = eval 1 (Obj.symO 17 "y")
          (bind_params nilObj
            (Obj.consO 10 (Obj.symO 11 "x") (Obj.consO 12 (Obj.symO 13 "y") nilObj))
            (eval_list 1 (Obj.consO 18 (Obj.intO 19 1) nilObj) nilObj st0).1
            (eval_list 1 (Obj.consO 18 (Obj.intO 19 1) nilObj) nilObj st0).2).1
          (bind_params nilObj
            (Obj.consO 10 (Obj.symO 11 "x") (Obj.consO 12 (Obj.symO 13 "y") nilObj))
            (eval_list 1 (Obj.consO 18 (Obj.intO 19 1) nilObj) nilObj st0).1
            (eval_list 1 (Obj.consO 18 (Obj.intO 19 1) nilObj) nilObj st0).2).2) := by
  refine ⟨?_, ?_, ?_⟩
  · have h := closure_application_truncates_bindings.1
      (Obj.consO 10 (Obj.symO 11 "x") (Obj.consO 12 (Obj.symO 13 "y") nilObj))
      (Obj.consO 14 (Obj.intO 15 1) nilObj) nilObj st0 (by decide) (by decide)
    simpa using h
  · exact closure_application_truncates_bindings.2.1 [("x", Obj.intO 15 1)] nilObj "y" st0
      (by decide)
  · exact closure_application_truncates_bindings.2.2 1 16
      (Obj.lamO 50
        (Obj.consO 10 (Obj.symO 11 "x") (Obj.consO 12 (Obj.symO 13 "y") nilObj))
        (Obj.symO 17 "y") nilObj)
      (Obj.consO 18 (Obj.intO 19 1) nilObj) nilObj st0 50
      (Obj.consO 10 (Obj.symO 11 "x") (Obj.consO 12 (Obj.symO 13 "y") nilObj))
      (Obj.symO 17 "y") nilObj st0 (by decide) rfl

/-! ## Tokenizer and number lemmas (shared by C7, C6 and the amended C3) -/

theorem char_ne_of_toNat_ne {c d : Char} (h : c.toNat ≠ d.toNat) : c ≠ d :=
  fun e => h (by rw [e])

/-- A decimal digit character is an ordinary atom character and is none of
the sign, comment or delimiter characters. -/
theorem digit_char_props (c : Char) (h : isDigitC c = true) :
    isSpaceC c = false ∧ atomChar c = true ∧ c ≠ '-' ∧ c ≠ '+' ∧ c ≠ ';' := by
  have h' : 48 ≤ c.toNat ∧ c.toNat ≤ 57 := by
    simpa [isDigitC, Bool.and_eq_true, decide_eq_true_eq] using h
  have hsp : c ≠ ' ' := char_ne_of_toNat_ne (by change c.toNat ≠ 32; omega)
  have htb : c ≠ '\t' := char_ne_of_toNat_ne (by change c.toNat ≠ 9; omega)
  have hnl : c ≠ '\n' := char_ne_of_toNat_ne (by change c.toNat ≠ 10; omega)
  have h11 : c ≠ Char.ofNat 11 := char_ne_of_toNat_ne (by change c.toNat ≠ 11; omega)
  have h12 : c ≠ Char.ofNat 12 := char_ne_of_toNat_ne (by change c.toNat ≠ 12; omega)
  have hcr : c ≠ '\r' := char_ne_of_toNat_ne (by change c.toNat ≠ 13; omega)
  have hsf : isSpaceC c = false := by simp [isSpaceC, hsp, htb, hnl, h11, h12, hcr]
  have hlp : c ≠ '(' := char_ne_of_toNat_ne (by change c.toNat ≠ 40; omega)
  have hrp : c ≠ ')' := char_ne_of_toNat_ne (by change c.toNat ≠ 41; omega)
  refine ⟨hsf, by simp [atomChar, hsf, hlp, hrp], ?_, ?_, ?_⟩
  · exact char_ne_of_toNat_ne (by change c.toNat ≠ 45; omega)
  · exact char_ne_of_toNat_ne (by change c.toNat ≠ 43; omega)
  · exact char_ne_of_toNat_ne (by change c.toNat ≠ 59; omega)

/-- Unpacking a positive atom-character test. -/
theorem atomChar_parts (c : Char) (h : atomChar c = true) :
    isSpaceC c = false ∧ ¬c = '(' ∧ ¬c = ')' := by
  simp only [atomChar] at h
  cases hsp : isSpaceC c
  · cases hlp : decide (c = '(')
    · cases hrp : decide (c = ')')
      · exact ⟨rfl, of_decide_eq_false hlp, of_decide_eq_false hrp⟩
      · rw [hsp, hlp, hrp] at h; simp at h
    · rw [hsp, hlp] at h; simp at h
  · rw [hsp] at h; simp at h

/-- Unpacking a negative atom-character test. -/
theorem atomChar_false_delim (c : Char) (h : atomChar c = false) :
    (isSpaceC c || c = '(' || c = ')') = true := by
  simp only [atomChar] at h
  cases hB : (isSpaceC c || decide (c = '(') || decide (c = ')'))
  · rw [hB] at h; simp at h
  · rfl

theorem all_digits_iff (cs : List Char) :
    all_digits cs = true ↔ ∀ c ∈ cs, isDigitC c = true := by
  induction cs with
  | nil => simp [all_digits]
  | cons c cs ih => simp [all_digits, Bool.and_eq_true, ih]

theorem digitChar_spec (m : Nat) (h : m < 10) :
    isDigitC (Nat.digitChar m) = true ∧ ((Nat.digitChar m).toNat - 48 : Nat) = m := by
  interval_cases m <;> exact ⟨by decide, by decide⟩

/-- The digit accumulator of `%d` only ever emits digits. -/
theorem natToDecAux_digits (fuel : Nat) :
    ∀ (n : Nat) (acc : List Char), (∀ c ∈ acc, isDigitC c = true) →
      ∀ c ∈ natToDecAux fuel n acc, isDigitC c = true := by
  induction fuel with
  | zero =>
    intro n acc hacc c hc
    simp only [natToDecAux] at hc
    rcases List.mem_cons.mp hc with hc | hc
    · exact hc ▸ (digitChar_spec (n % 10) (Nat.mod_lt _ (by omega))).1
    · exact hacc c hc
  | succ fuel ih =>
    intro n acc hacc c hc
    simp only [natToDecAux] at hc
    split at hc
    · rcases List.mem_cons.mp hc with hc | hc
      · exact hc ▸ (digitChar_spec (n % 10) (Nat.mod_lt _ (by omega))).1
      · exact hacc c hc
    · refine ih (n / 10) _ ?_ c hc
      intro d hd
      rcases List.mem_cons.mp hd with hd | hd
      · exact hd ▸ (digitChar_spec (n % 10) (Nat.mod_lt _ (by omega))).1
      · exact hacc d hd

/-- Accumulator lemma for the digit emitter. -/
theorem natToDecAux_append (fuel : Nat) :
    ∀ (n : Nat) (acc : List Char),
      natToDecAux fuel n acc = natToDecAux fuel n [] ++ acc := by
  induction fuel with
  | zero => intro n acc; simp [natToDecAux]
  | succ fuel ih =>
    intro n acc
    simp only [natToDecAux]
    split
    · simp
    · rw [ih (n / 10) (Nat.digitChar (n % 10) :: acc), ih (n / 10) [Nat.digitChar (n % 10)]]
      simp

theorem natToDecAux_ne_nil (fuel n : Nat) (acc : List Char) :
    natToDecAux fuel n acc ≠ [] := by
  cases fuel with
  | zero => simp [natToDecAux]
  | succ fuel =>
    simp only [natToDecAux]
    split
    · simp
    · rw [natToDecAux_append]
      intro h
      exact natToDecAux_ne_nil fuel (n / 10) [] (List.append_eq_nil.mp h).1

/-- Folding decimal digits distributes over append. -/
theorem decFold_append (xs : List Char) :
    ∀ (ys : List Char) (a : Int), (∀ c ∈ xs, isDigitC c = true) →
      decFold (xs ++ ys) a = decFold ys (decFold xs a) := by
  induction xs with
  | nil => intro ys a _; rfl
  | cons c cs ih =>
    intro ys a hall
    have hc : isDigitC c = true := hall c (List.mem_cons_self _ _)
    simp only [List.cons_append, decFold, hc, if_true]
    exact ih ys _ (fun d hd => hall d (List.mem_cons_of_mem _ hd))

/-- The decimal fold inverts the digit emitter: folding the digits of `n`
onto an accumulator `a` yields `a` shifted left by the digit count,
plus `n`. -/
theorem decFold_natToDecAux (fuel : Nat) :
    ∀ (n : Nat) (a : Int), n ≤ fuel →
      decFold (natToDecAux fuel n []) a
        = a * 10 ^ (natToDecAux fuel n []).length + n := by
  induction fuel with
  | zero =>
    intro n a hn
    have hn0 : n = 0 := by omega
    subst hn0
    have hd := digitChar_spec 0 (by omega)
    simp only [natToDecAux, Nat.zero_mod, decFold, hd.1, if_true, hd.2]
    simp
  | succ fuel ih =>
    intro n a hn
    by_cases h10 : n < 10
    · have hd := digitChar_spec (n % 10) (Nat.mod_lt _ (by omega))
      have hm : n % 10 = n := Nat.mod_eq_of_lt h10
      simp only [natToDecAux, if_pos h10, decFold, hd.1, if_true]
      rw [hm] at hd ⊢
      simp [hd.2]
    · have hd := digitChar_spec (n % 10) (Nat.mod_lt _ (by omega))
      have hrec : n / 10 ≤ fuel := by
        have : n / 10 < n := Nat.div_lt_self (by omega) (by omega)
        omega
      simp only [natToDecAux, if_neg h10]
      rw [natToDecAux_append fuel (n / 10)]
      rw [decFold_append _ _ _ (natToDecAux_digits fuel (n / 10) [] (by simp))]
      simp only [decFold, hd.1, if_true, hd.2]
      rw [ih (n / 10) a hrec]
      rw [List.length_append, List.length_cons, List.length_nil]
      have hmod : ((n / 10 : Nat) : Int) * 10 + ((n % 10 : Nat) : Int) = (n : Int) := by
        omega
      rw [pow_succ]
      linear_combination hmod

theorem natToDecChars_digits (n : Nat) : ∀ c ∈ natToDecChars n, isDigitC c = true :=
  natToDecAux_digits n n [] (by simp)

theorem natToDecChars_ne_nil (n : Nat) : natToDecChars n ≠ [] :=
  natToDecAux_ne_nil n n []

theorem decFold_natToDecChars (n : Nat) (a : Int) :
    decFold (natToDecChars n) a = a * 10 ^ (natToDecChars n).length + n :=
  decFold_natToDecAux n n a le_rfl

/-- The C `atoi` inverts `printf("%d", ...)`. -/
theorem atoi_intToDec (k : Int) : atoi (intToDec k).data = k := by
  cases k with
  | ofNat m =>
    obtain ⟨c, cs, hcs⟩ : ∃ c cs, natToDecChars m = c :: cs := by
      cases h : natToDecChars m with
      | nil => exact absurd h (natToDecChars_ne_nil m)
      | cons c cs => exact ⟨c, cs, rfl⟩
    have hdig : isDigitC c = true :=
      natToDecChars_digits m c (by rw [hcs]; exact List.mem_cons_self _ _)
    have hp := digit_char_props c hdig
    show atoi (natToDecChars m) = Int.ofNat m
    rw [hcs]
    simp only [atoi, List.dropWhile_cons, hp.1, if_false, Bool.false_eq_true]
    rw [if_neg hp.2.2.1, if_neg hp.2.2.2.1, ← hcs, decFold_natToDecChars]
    simp
  | negSucc m =>
    show atoi ('-' :: natToDecChars (m + 1)) = Int.negSucc m
    have hsp : isSpaceC '-' = false := by decide
    simp only [atoi, List.dropWhile_cons, hsp, if_false, Bool.false_eq_true, if_pos rfl]
    rw [decFold_natToDecChars]
    simp [Int.negSucc_eq]

/-- The printed form of an integer passes the reader's number test. -/
theorem isNumTok_intToDec (k : Int) : isNumTok (intToDec k).data = true := by
  cases k with
  | ofNat m =>
    obtain ⟨c, cs, hcs⟩ : ∃ c cs, natToDecChars m = c :: cs := by
      cases h : natToDecChars m with
      | nil => exact absurd h (natToDecChars_ne_nil m)
      | cons c cs => exact ⟨c, cs, rfl⟩
    have hdig : isDigitC c = true :=
      natToDecChars_digits m c (by rw [hcs]; exact List.mem_cons_self _ _)
    have hall : ∀ d ∈ c :: cs, isDigitC d = true := by
      rw [← hcs]; exact natToDecChars_digits m
    show isNumTok (natToDecChars m) = true
    rw [hcs]
    simp only [isNumTok, if_neg (digit_char_props c hdig).2.2.1]
    exact (all_digits_iff _).mpr hall
  | negSucc m =>
    show isNumTok ('-' :: natToDecChars (m + 1)) = true
    have h1 : (natToDecChars (m + 1)).isEmpty = false := by
      cases h : natToDecChars (m + 1) with
      | nil => exact absurd h (natToDecChars_ne_nil _)
      | cons a b => rfl
    simp [isNumTok, h1, (all_digits_iff _).mpr (natToDecChars_digits (m + 1))]

/-- All characters printed for an integer are atom characters, and the
first is never a semicolon. -/
theorem intToDec_atom_chars (k : Int) :
    (∀ c ∈ (intToDec k).data, atomChar c = true) ∧
    (∀ c cs, (intToDec k).data = c :: cs →
      c ≠ ';' ∧ isSpaceC c = false ∧ c ≠ ')' ∧ c ≠ Char.ofNat 39) := by
  have hminus : atomChar '-' = true := by decide
  cases k with
  | ofNat m =>
    constructor
    · intro c hc
      exact (digit_char_props c (natToDecChars_digits m c hc)).2.1
    · intro c cs h
      have hdig : isDigitC c = true := by
        refine natToDecChars_digits m c ?_
        show c ∈ natToDecChars m
        rw [show natToDecChars m = (intToDec (Int.ofNat m)).data from rfl, h]
        exact List.mem_cons_self _ _
      have hp := digit_char_props c hdig
      have h' : 48 ≤ c.toNat ∧ c.toNat ≤ 57 := by
        simpa [isDigitC, Bool.and_eq_true, decide_eq_true_eq] using hdig
      refine ⟨hp.2.2.2.2, hp.1, ?_, ?_⟩
      · exact char_ne_of_toNat_ne (by change c.toNat ≠ 41; omega)
      · exact char_ne_of_toNat_ne (by change c.toNat ≠ 39; omega)
  | negSucc m =>
    constructor
    · intro c hc
      rcases List.mem_cons.mp hc with hc | hc
      · exact hc ▸ hminus
      · exact (digit_char_props c (natToDecChars_digits (m + 1) c hc)).2.1
    · intro c cs h
      have hc : c = '-' := by
        have : '-' :: natToDecChars (m + 1) = c :: cs := h
        exact (List.cons.injEq _ _ _ _ ▸ this).1.symm
      subst hc
      exact ⟨by decide, by decide, by decide, by decide⟩

/-! ### Tokenizer lemmas -/

theorem skip_whitespace_noop (c : Char) (cs : List Char)
    (h1 : isSpaceC c = false) (h2 : c ≠ ';') :
    skip_whitespace (c :: cs) = c :: cs := by
  simp [skip_whitespace, skip_ws_aux, h1, h2]

theorem take_atom_all (t : List Char) :
    ∀ r, (∀ c ∈ t, atomChar c = true) → headNotAtom r → take_atom (t ++ r) = (t, r) := by
  induction t with
  | nil =>
    intro r _ hr
    cases r with
    | nil => rfl
    | cons c cs =>
      have hg : (isSpaceC c || c = '(' || c = ')') = true := atomChar_false_delim c hr
      simp [take_atom, hg]
  | cons c t ih =>
    intro r hall hr
    have hp := atomChar_parts c (hall c (List.mem_cons_self _ _))
    have hg : (isSpaceC c || c = '(' || c = ')') = false := by
      simp [hp.1, hp.2.1, hp.2.2]
    simp only [List.cons_append, take_atom, hg, Bool.false_eq_true, if_false]
    simp only [List.append_eq, ih r (fun d hd => hall d (List.mem_cons_of_mem _ hd)) hr]

theorem read_token_atom (c : Char) (t r : List Char)
    (hall : ∀ d ∈ c :: t, atomChar d = true) (hsemi : c ≠ ';') (hr : headNotAtom r) :
    read_token ((c :: t) ++ r) = (some (String.mk (c :: t)), r) := by
  have hc' := atomChar_parts c (hall c (List.mem_cons_self _ _))
  have hskip : skip_whitespace ((c :: t) ++ r) = c :: (t ++ r) := by
    rw [List.cons_append]
    exact skip_whitespace_noop c (t ++ r) hc'.1 hsemi
  have hpar : (c = '(' || c = ')') = false := by
    simp [hc'.2.1, hc'.2.2]
  have htake : take_atom ((c :: t) ++ r) = (c :: t, r) := take_atom_all (c :: t) r hall hr
  rw [read_token, hskip]
  simp only [hpar, Bool.false_eq_true, if_false]
  rw [← List.cons_append, htake]

/-- Parsing at an atom token: the token is consumed up to the delimiter and
classified by the number test — an integer via `atoi`, otherwise a fresh
symbol. -/
theorem parse_expr_atom (fuel : Nat) (c : Char) (t r : List Char) (s : St)
    (hall : ∀ d ∈ c :: t, atomChar d = true) (hsemi : c ≠ ';')
    (hq : String.mk (c :: t) ≠ quoteTok) (hr : headNotAtom r) :
    parse_expr (fuel + 1) ((c :: t) ++ r) s
      = (if isNumTok (c :: t) then Obj.intO s.nextId (atoi (c :: t))
         else Obj.symO s.nextId (String.mk (c :: t)), r, bumpId s) := by
  have hrt := read_token_atom c t r hall hsemi hr
  have h1 : String.mk (c :: t) ≠ "(" := by
    intro e
    have e2 : c :: t = ['('] := congrArg String.data e
    have : atomChar '(' = true := (List.cons.injEq _ _ _ _ ▸ e2).1 ▸ hall c (List.mem_cons_self _ _)
    exact absurd this (by decide)
  simp only [parse_expr, hrt, if_neg h1, if_neg hq]
  by_cases hnum : isNumTok (c :: t)
  · have : isNumTok (String.mk (c :: t)).data = true := hnum
    simp [this, make_int, hnum]
  · have : isNumTok (String.mk (c :: t)).data = false := by
      simpa using hnum
    simp [this, make_symbol, hnum]

/-! ## Claim C7 -/

/-- For an all-digit list the decimal fold computes the positional base-10
value. -/
theorem decFold_all_digits (ds : List Char) :
    (∀ c ∈ ds, isDigitC c = true) → ∀ a : Int,
      decFold ds a = a * 10 ^ ds.length + decDigitsVal ds := by
  induction ds with
  | nil => intro _ a; simp [decFold, decDigitsVal]
  | cons c cs ih =>
    intro hall a
    have hc : isDigitC c = true := hall c (List.mem_cons_self _ _)
    simp only [decFold, hc, if_true]
    rw [ih (fun d hd => hall d (List.mem_cons_of_mem _ hd))]
    simp only [decDigitsVal, List.length_cons]
    rw [pow_succ]
    ring

/-- C7: the reader's number test accepts an atom token exactly when it is
an optional minus followed by at least one decimal digit and nothing else;
on those tokens `atoi` computes the signed base-10 positional value; an
atom token is parsed to an Integer when the test accepts and to a Symbol
otherwise; and the lone token `-` parses to a Symbol. -/
theorem atom_classified_as_base10_integer :
    (∀ cs : List Char, isNumTok cs = true ↔ specIntShape cs) ∧
    (∀ cs : List Char, specIntShape cs → atoi cs = specIntValue cs) ∧
    (∀ (fuel : Nat) (c : Char) (t r : List Char) (s : St),
      (∀ d ∈ c :: t, atomChar d = true) → c ≠ ';' →
      String.mk (c :: t) ≠ quoteTok → headNotAtom r →
      parse_expr (fuel + 1) ((c :: t) ++ r) s
        = (if isNumTok (c :: t) then Obj.intO s.nextId (atoi (c :: t))
           else Obj.symO s.nextId (String.mk (c :: t)), r, bumpId s)) ∧
    (∀ s : St, parse_expr 1 "-".data s = (Obj.symO s.nextId "-", [], bumpId s)) := by
  refine ⟨?_, ?_, parse_expr_atom, fun s => rfl⟩
  · intro cs
    constructor
    · intro h
      cases cs with
      | nil => simp [isNumTok] at h
      | cons c cs' =>
        by_cases hc : c = '-'
        · subst hc
          cases cs' with
          | nil => simp [isNumTok] at h
          | cons d ds =>
            have h2 : all_digits (d :: ds) = true := by
              simpa [isNumTok] using h
            exact ⟨d :: ds, by simp, (all_digits_iff _).mp h2, Or.inr rfl⟩
        · simp only [isNumTok, if_neg hc] at h
          exact ⟨c :: cs', by simp, (all_digits_iff _).mp h, Or.inl rfl⟩
    · rintro ⟨ds, hne, hdig, hcs | hcs⟩
      · rw [hcs]
        cases ds with
        | nil => exact absurd rfl hne
        | cons d ds' =>
          have hd : isDigitC d = true := hdig d (List.mem_cons_self _ _)
          simp only [isNumTok, if_neg (digit_char_props d hd).2.2.1]
          exact (all_digits_iff _).mpr hdig
      · rw [hcs]
        have h1 : ds.isEmpty = false := by
          cases hE : ds with
          | nil => exact absurd hE hne
          | cons a b => rfl
        simp [isNumTok, h1, (all_digits_iff ds).mpr hdig]
  · rintro cs ⟨ds, hne, hdig, hcs | hcs⟩
    · rw [hcs]
      cases ds with
      | nil => exact absurd rfl hne
      | cons d ds' =>
        have hd : isDigitC d = true := hdig d (List.mem_cons_self _ _)
        have hp := digit_char_props d hd
        have hfold := decFold_all_digits (d :: ds') hdig 0
        simp [atoi, specIntValue, hfold, hp.1, hp.2.2.1, hp.2.2.2.1]
    · rw [hcs]
      have hfold := decFold_all_digits ds hdig 0
      simp [atoi, isSpaceC, specIntValue, hfold]

/-- Witness for the atom-classification theorem at the tokens `-12` (an
integer), `ab` (a symbol) and the lone `-` (a symbol). -/
theorem atom_classified_as_base10_integer_witness :
    (isNumTok ['-', '1', '2'] = true ↔ specIntShape ['-', '1', '2']) ∧
    atoi ['-', '1', '2'] = specIntValue ['-', '1', '2'] ∧
    parse_expr 1 ['a', 'b'] st0
      = (if isNumTok ['a', 'b'] then Obj.intO st0.nextId (atoi ['a', 'b'])
         else Obj.symO st0.nextId (String.mk ['a', 'b']), [], bumpId st0) ∧
    parse_expr 1 "-".data st0 = (Obj.symO st0.nextId "-", [], bumpId st0) :=
  ⟨atom_classified_as_base10_integer.1 ['-', '1', '2'],
   atom_classified_as_base10_integer.2.1 ['-', '1', '2']
     ⟨['1', '2'], by decide, by decide, Or.inr rfl⟩,
   by
     have h := atom_classified_as_base10_integer.2.2.1 0 'a' ['b'] [] st0
       (by decide) (by decide) (by decide) trivial
     simpa using h,
   atom_classified_as_base10_integer.2.2.2 st0⟩

/-! ## Claim C6: parse after print -/

theorem string_data_append (s t : String) : (s ++ t).data = s.data ++ t.data := rfl

theorem read_token_lparen (r : List Char) : read_token ('(' :: r) = (some "(", r) := rfl

theorem read_token_rparen (r : List Char) : read_token (')' :: r) = (some ")", r) := rfl

theorem skip_whitespace_space (x : List Char) :
    skip_whitespace (' ' :: x) = skip_whitespace x := rfl

/-- Skipping whitespace commutes with one leading space inside
`parse_list`. -/
theorem parse_list_skip_space (fuel : Nat) (x : List Char) (s : St) :
    parse_list (fuel + 1) (' ' :: x) s = parse_list (fuel + 1) x s := by
  simp only [parse_list, skip_whitespace_space]

/-- The first printed character of a round-trippable value survives
whitespace skipping and is not a closing paren. -/
theorem print_head_wf (v : Obj) (h : wfVal v = true) :
    ∃ c cs, (print_obj v).data = c :: cs ∧ isSpaceC c = false ∧ c ≠ ';' ∧ c ≠ ')' := by
  cases v with
  | intO i n =>
    obtain ⟨c, cs, hcs⟩ : ∃ c cs, (intToDec n).data = c :: cs := by
      cases n with
      | ofNat m =>
        cases hh : natToDecChars m with
        | nil => exact absurd hh (natToDecChars_ne_nil m)
        | cons a b => exact ⟨a, b, hh ▸ rfl⟩
      | negSucc m => exact ⟨'-', natToDecChars (m + 1), rfl⟩
    have hp := (intToDec_atom_chars n).2 c cs hcs
    exact ⟨c, cs, hcs, hp.2.1, hp.1, hp.2.2.1⟩
  | symO i nm =>
    have hw : wfSymName nm = true := h
    simp only [wfSymName, Bool.and_eq_true, Bool.not_eq_true'] at hw
    obtain ⟨⟨⟨⟨hne, hall⟩, hnum⟩, hqt⟩, hsemi⟩ := hw
    obtain ⟨c, cs, hcs⟩ : ∃ c cs, nm.data = c :: cs := by
      cases hh : nm.data with
      | nil => rw [hh] at hne; simp at hne
      | cons a b => exact ⟨a, b, rfl⟩
    have hc : atomChar c = true := by
      have := List.all_eq_true.mp hall c (by rw [hcs]; exact List.mem_cons_self _ _)
      simpa using this
    have hp := atomChar_parts c hc
    refine ⟨c, cs, hcs, hp.1, ?_, hp.2.2⟩
    intro e
    rw [hcs, e] at hsemi
    simp at hsemi
  | consO i a d =>
    refine ⟨'(', (print_obj a).data ++ ((print_cdr d).data ++ [')']), ?_, by decide,
      by decide, by decide⟩
    show ("(" ++ print_obj a ++ print_cdr d ++ ")").data = _
    simp [string_data_append]
  | nullO => simp [wfVal] at h
  | funcO i f => simp [wfVal] at h
  | lamO i p b e => simp [wfVal] at h

/-- After a printed list tail, the next character is a space or the closing
paren — never part of a preceding atom. -/
theorem print_cdr_headNotAtom (d : Obj) (hd : wfListTail d = true) (r : List Char) :
    headNotAtom ((print_cdr d).data ++ ')' :: r) := by
  cases d with
  | consO j b e =>
    have : (print_cdr (Obj.consO j b e)).data
        = ' ' :: ((print_obj b).data ++ (print_cdr e).data) := by
      show (" " ++ print_obj b ++ print_cdr e).data = _
      simp [string_data_append]
    rw [this]
    show atomChar ' ' = false
    decide
  | symO j nm =>
    have hnil : is_nil (Obj.symO j nm) = true := by
      simpa only [wfListTail] using hd
    have : print_cdr (Obj.symO j nm) = "" := by
      simp only [print_cdr, hnil, if_true]
    rw [this]
    show atomChar ')' = false
    decide
  | nullO => simp [wfListTail, is_nil, nilObj] at hd
  | intO j n => simp [wfListTail, is_nil, nilObj] at hd
  | funcO j f => simp [wfListTail, is_nil, nilObj] at hd
  | lamO j p b e => simp [wfListTail, is_nil, nilObj] at hd

/-- Unfolding `parse_expr` at an opening paren. -/
theorem parse_expr_lparen (fuel : Nat) (rest : List Char) (s : St) :
    parse_expr (fuel + 1) ('(' :: rest) s
      = (let t := parse_list fuel rest s
         match read_token t.2.1 with
         | (none, inp3) => (t.1, inp3, addDiag expectedParenMsg t.2.2)
         | (some tok2, inp3) =>
           if tok2 = ")" then (t.1, inp3, t.2.2)
           else (t.1, inp3, addDiag expectedParenMsg t.2.2)) := by
  simp only [parse_expr, read_token_lparen]
  rfl

/-- Unfolding `parse_list` at a non-space, non-comment, non-paren head. -/
theorem parse_list_cons_step (fuel : Nat) (c : Char) (rest : List Char) (s : St)
    (hsp : isSpaceC c = false) (hsemi : c ≠ ';') (hrp : c ≠ ')') :
    parse_list (fuel + 1) (c :: rest) s
      = (let t := parse_expr fuel (c :: rest) s
         let u := parse_list fuel t.2.1 t.2.2
         (Obj.consO u.2.2.nextId t.1 u.1, u.2.1, bumpId u.2.2)) := by
  simp only [parse_list, skip_whitespace_noop c rest hsp hsemi]
  rw [if_neg hrp]
  rfl

/-- One element plus the remaining tail of a printed list parse to a pair
that is structurally equal to the original pair, stopping at the closing
paren. -/
theorem parse_list_step (a d : Obj) (ha : parseRoundE a) (hd : parseRoundL d)
    (hhead : ∃ c0 cs0, (print_obj a).data = c0 :: cs0 ∧
      isSpaceC c0 = false ∧ c0 ≠ ';' ∧ c0 ≠ ')')
    (hdel : ∀ r : List Char, headNotAtom ((print_cdr d).data ++ ')' :: r)) :
    ∀ (r : List Char) (s : St) (fuel : Nat),
      2 * ((print_obj a).data.length + ((print_cdr d).data.length + r.length + 1)) + 2 ≤ fuel →
      ∃ v2 s2,
        parse_list fuel ((print_obj a).data ++ ((print_cdr d).data ++ ')' :: r)) s
          = (v2, ')' :: r, s2) ∧
        structEq v2 (Obj.consO 0 a d) = true ∧ s2.diags = s.diags := by
  intro r s fuel hf
  obtain ⟨c0, cs0, hpa, hsp0, hsemi0, hrp0⟩ := hhead
  have hlenpa : (print_obj a).data.length = cs0.length + 1 := by rw [hpa]; rfl
  obtain ⟨f, rfl⟩ : ∃ f, fuel = f + 1 := ⟨fuel - 1, by omega⟩
  rw [hpa, List.cons_append,
    parse_list_cons_step f c0 (cs0 ++ ((print_cdr d).data ++ ')' :: r)) s hsp0 hsemi0 hrp0,
    ← List.cons_append, ← hpa]
  have hXlen : ((print_cdr d).data ++ ')' :: r).length
      = (print_cdr d).data.length + (r.length + 1) := by simp
  obtain ⟨a2, sa, hpe, hsa, hda⟩ :=
    ha ((print_cdr d).data ++ ')' :: r) s f (by omega) (hdel r)
  rw [hpe]
  obtain ⟨d2, sd, hpl, hsd, hdd⟩ := hd r sa f (by omega)
  simp only [hpl]
  refine ⟨Obj.consO sd.nextId a2 d2, bumpId sd, rfl, by simp [structEq, hsa, hsd], ?_⟩
  show (bumpId sd).diags = s.diags
  simp only [bumpId]
  rw [show ({ sd with nextId := sd.nextId + 1 } : St).diags = sd.diags from rfl, hdd, hda]

/-- Structural equality ignores the allocation identifier of a pair. -/
theorem structEq_cons_id (v : Obj) (a d : Obj) (i j : Nat) :
    structEq v (Obj.consO i a d) = structEq v (Obj.consO j a d) := by
  cases v <;> rfl

/-- The parse-print round trip, stated mutually for expressions and for
printed list tails, by structural induction on the value. -/
theorem parse_print_all (v : Obj) :
    (wfVal v = true → parseRoundE v) ∧ (wfListTail v = true → parseRoundL v) := by
  induction v with
  | nullO =>
    exact ⟨by intro h; simp [wfVal] at h,
           by intro h; simp [wfListTail, is_nil, nilObj] at h⟩
  | funcO i fn =>
    exact ⟨by intro h; simp [wfVal] at h,
           by intro h; simp [wfListTail, is_nil, nilObj] at h⟩
  | lamO i p b e =>
    exact ⟨by intro h; simp [wfVal] at h,
           by intro h; simp [wfListTail, is_nil, nilObj] at h⟩
  | intO i n =>
    constructor
    · intro _ r s fuel hf hr
      obtain ⟨c, cs, hcs⟩ : ∃ c cs, (intToDec n).data = c :: cs := by
        cases n with
        | ofNat m =>
          cases hh : natToDecChars m with
          | nil => exact absurd hh (natToDecChars_ne_nil m)
          | cons x y => exact ⟨x, y, hh ▸ rfl⟩
        | negSucc m => exact ⟨'-', natToDecChars (m + 1), rfl⟩
      have hall : ∀ e ∈ c :: cs, atomChar e = true := by
        rw [← hcs]; exact (intToDec_atom_chars n).1
      have hp2 := (intToDec_atom_chars n).2 c cs hcs
      have hq : String.mk (c :: cs) ≠ quoteTok := by
        intro e
        have e2 : c :: cs = [Char.ofNat 39] := congrArg String.data e
        exact hp2.2.2.2 (List.cons.injEq _ _ _ _ ▸ e2).1
      obtain ⟨f, rfl⟩ : ∃ f, fuel = f + 1 := ⟨fuel - 1, by omega⟩
      have hstep := parse_expr_atom f c cs r s hall hp2.1 hq hr
      have hpr : (print_obj (Obj.intO i n)).data = c :: cs := hcs
      rw [hpr, hstep]
      have hnum : isNumTok (c :: cs) = true := by
        rw [← hcs]; exact isNumTok_intToDec n
      have hv : atoi (c :: cs) = n := by rw [← hcs]; exact atoi_intToDec n
      refine ⟨_, _, rfl, ?_, rfl⟩
      simp [hnum, structEq, hv]
    · intro h
      simp [wfListTail, is_nil, nilObj] at h
  | symO i nm =>
    constructor
    · intro h r s fuel hf hr
      have hw : wfSymName nm = true := h
      simp only [wfSymName, Bool.and_eq_true, Bool.not_eq_true'] at hw
      obtain ⟨⟨⟨⟨hne, hall0⟩, hnum⟩, hqt⟩, hsemi⟩ := hw
      obtain ⟨c, cs, hcs⟩ : ∃ c cs, nm.data = c :: cs := by
        cases hh : nm.data with
        | nil => rw [hh] at hne; simp at hne
        | cons x y => exact ⟨x, y, rfl⟩
      have hall : ∀ e ∈ c :: cs, atomChar e = true := by
        intro e he
        have := List.all_eq_true.mp hall0 e (by rw [hcs]; exact he)
        simpa using this
      have hmk : String.mk (c :: cs) = nm := by rw [← hcs]
      have hq : String.mk (c :: cs) ≠ quoteTok := by
        rw [hmk]
        intro e
        rw [e] at hqt
        simp at hqt
      have hsemi2 : c ≠ ';' := by
        intro e
        rw [hcs, e] at hsemi
        simp at hsemi
      obtain ⟨f, rfl⟩ : ∃ f, fuel = f + 1 := ⟨fuel - 1, by omega⟩
      have hstep := parse_expr_atom f c cs r s hall hsemi2 hq hr
      have hpr : (print_obj (Obj.symO i nm)).data = c :: cs := hcs
      rw [hpr, hstep]
      have hnum2 : isNumTok (c :: cs) = false := by
        rw [← hcs]; exact hnum
      refine ⟨_, _, rfl, ?_, rfl⟩
      simp [hnum2, structEq, hmk]
    · intro h
      have hnil : is_nil (Obj.symO i nm) = true := by simpa [wfListTail] using h
      have e : Obj.symO i nm = nilObj := by simpa [is_nil] using hnil
      have e1 : i = 0 := (Obj.symO.injEq _ _ _ _ ▸ e).1
      have e2 : nm = "nil" := (Obj.symO.injEq _ _ _ _ ▸ e).2
      subst e1; subst e2
      intro r s fuel hf
      obtain ⟨f, rfl⟩ : ∃ f, fuel = f + 1 := ⟨fuel - 1, by omega⟩
      refine ⟨nilObj, s, ?_, by decide, rfl⟩
      have hpr : (print_cdr (Obj.symO 0 "nil")).data = [] := rfl
      have hsw : skip_whitespace (')' :: r) = ')' :: r :=
        skip_whitespace_noop ')' r (by decide) (by decide)
      rw [hpr, List.nil_append]
      simp [parse_list, hsw]
  | consO i a d iha ihd =>
    have hdataE : (print_obj (Obj.consO i a d)).data
        = '(' :: ((print_obj a).data ++ ((print_cdr d).data ++ [')'])) := by
      show ("(" ++ print_obj a ++ print_cdr d ++ ")").data = _
      simp [string_data_append]
    have hdataL : (print_cdr (Obj.consO i a d)).data
        = ' ' :: ((print_obj a).data ++ (print_cdr d).data) := by
      show (" " ++ print_obj a ++ print_cdr d).data = _
      simp [string_data_append]
    constructor
    · intro h r s fuel hf hr
      have hw : wfVal a = true ∧ wfListTail d = true := by
        simpa [wfVal, Bool.and_eq_true] using h
      have hinput : (print_obj (Obj.consO i a d)).data ++ r
          = '(' :: ((print_obj a).data ++ ((print_cdr d).data ++ ')' :: r)) := by
        rw [hdataE]; simp
      have hlenE : (print_obj (Obj.consO i a d)).data.length
          = 1 + ((print_obj a).data.length + ((print_cdr d).data.length + 1)) := by
        rw [hdataE]
        simp only [List.length_cons, List.length_append, List.length_nil]
        omega
      obtain ⟨f, rfl⟩ : ∃ f, fuel = f + 1 := ⟨fuel - 1, by omega⟩
      rw [hinput, parse_expr_lparen]
      obtain ⟨v2, s2, hpl, hseq, hdg⟩ :=
        parse_list_step a d (iha.1 hw.1) (ihd.2 hw.2) (print_head_wf a hw.1)
          (print_cdr_headNotAtom d hw.2) r s f (by omega)
      simp only [hpl, read_token_rparen]
      refine ⟨v2, s2, by simp, ?_, hdg⟩
      rw [structEq_cons_id v2 a d i 0]
      exact hseq
    · intro h r s fuel hf
      have hw : wfVal a = true ∧ wfListTail d = true := by
        simpa [wfListTail, Bool.and_eq_true] using h
      have hinput : (print_cdr (Obj.consO i a d)).data ++ ')' :: r
          = ' ' :: ((print_obj a).data ++ ((print_cdr d).data ++ ')' :: r)) := by
        rw [hdataL]; simp
      have hlenL : (print_cdr (Obj.consO i a d)).data.length
          = 1 + ((print_obj a).data.length + (print_cdr d).data.length) := by
        rw [hdataL]
        simp only [List.length_cons, List.length_append]
        omega
      obtain ⟨f, rfl⟩ : ∃ f, fuel = f + 1 := ⟨fuel - 1, by omega⟩
      rw [hinput, parse_list_skip_space]
      obtain ⟨v2, s2, hpl, hseq, hdg⟩ :=
        parse_list_step a d (iha.1 hw.1) (ihd.2 hw.2) (print_head_wf a hw.1)
          (print_cdr_headNotAtom d hw.2) r s (f + 1) (by omega)
      rw [hpl]
      refine ⟨v2, s2, rfl, ?_, hdg⟩
      rw [structEq_cons_id v2 a d i 0]
      exact hseq

/-- C6: for every value built only from integers, symbols with re-readable
names, and proper lists of such values (quote forms are ordinary such
lists), parsing the printed form consumes the whole text and yields a
structurally equal value. -/
theorem parse_of_print_is_structEq (v : Obj) (h : wfVal v = true)
    (s : St) (fuel : Nat) (hf : 2 * (print_obj v).data.length + 1 ≤ fuel) :
    ∃ v2 s2, parse_expr fuel (print_obj v).data s = (v2, [], s2) ∧
      structEq v2 v = true := by
  obtain ⟨v2, s2, h1, h2, _⟩ :=
    (parse_print_all v).1 h [] s fuel (by simpa using hf) trivial
  exact ⟨v2, s2, by simpa using h1, h2⟩

/-- Witness for the round-trip theorem at the value `(1 (quote ab) -7)`. -/
theorem parse_of_print_is_structEq_witness :
    ∃ v2 s2, parse_expr 50 (print_obj c6WitnessVal).data st0 = (v2, [], s2) ∧
      structEq v2 c6WitnessVal = true :=
  parse_of_print_is_structEq c6WitnessVal (by decide) st0 50 (by decide)

end TinyLisp
